import Mathlib

/-!
Verification development for the signal-parsing and trade-execution pipeline
of `src/main.py` (a Telegram-to-Bybit trading bot).

Modelling conventions (shallow embedding):

* Python `float` and `decimal.Decimal` values are modelled as exact rationals
  (`ℚ`).  The `Decimal` context precision of 28 significant digits is not
  modelled; the explicit `quantize(..., ROUND_DOWN)` steps of the source are
  modelled exactly (`safe_decimal`, truncation toward zero).
* Python regular-expression searches are compiled, pattern by pattern, into
  executable scanning functions over `List Char` with Python's leftmost /
  greedy-with-backtracking semantics.  Character classes `\s`, `\w`, `\d`
  and the case mapping are modelled over ASCII (every string the claims
  mention is ASCII apart from emoji, which fall in no class).
* The Bybit/Telegram network collaborators are modelled as an `Env` record of
  oracle answers (balance, price, order responses); the message handler is a
  function from configuration, oracle answers and message text to the list of
  exchange API calls (`ApiCall`) it performs, in order.
-/

attribute [local semireducible] Rat.mul Rat.inv Rat.add Rat.sub Rat.ofScientific

/-! ## Character classes (ASCII models of Python's `\d`, `\s`, `\w`) -/

/-- Python `\s` over ASCII: space, tab, newline, vertical tab, form feed,
carriage return. -/
def isSpace (c : Char) : Bool :=
  c == ' ' || c == '\t' || c == '\n' || c == '\x0b' || c == '\x0c' || c == '\r'

/-- Python `\w` over ASCII: letters, digits, underscore. -/
def isWordChar (c : Char) : Bool :=
  c.isAlpha || c.isDigit || c == '_'

/-- The character class `[A-Z0-9]` of the symbol pattern. -/
def isUpperAlnum (c : Char) : Bool :=
  ('A' ≤ c && c ≤ 'Z') || ('0' ≤ c && c ≤ '9')

/-- Characters a match of the numeric pattern `[0-9]*\.?[0-9]+` can consist
of: digits and the decimal point. -/
def isNumChar (c : Char) : Bool :=
  c.isDigit || c == '.'

/-- Case-insensitive prefix test: `pat` is given in lowercase, the text is
lowered character-wise (ASCII, matching `re.IGNORECASE` on the source's
ASCII patterns). -/
def icStartsWith : List Char → List Char → Bool
  | [], _ => true
  | _ :: _, [] => false
  | p :: ps, c :: cs => (c.toLower == p) && icStartsWith ps cs

/-! ## The numeric token pattern `[0-9]*\.?[0-9]+`

`numMatchAt cs` returns the (token, remainder) produced by matching the
pattern at the start of `cs` with Python's greedy backtracking: the integer
part is the maximal digit run; a fractional part `.<digits>` is appended when
present; a trailing bare `.` is given back; a match needs at least one
digit. -/

def numMatchAt (cs : List Char) : Option (List Char × List Char) :=
  let d1 := cs.takeWhile Char.isDigit
  match cs.dropWhile Char.isDigit with
  | '.' :: r2 =>
    let d2 := r2.takeWhile Char.isDigit
    if d2.isEmpty then
      if d1.isEmpty then none else some (d1, '.' :: r2)
    else
      some (d1 ++ '.' :: d2, r2.dropWhile Char.isDigit)
  | _ => if d1.isEmpty then none else some (d1, cs.dropWhile Char.isDigit)

/-- `re.findall(r"([0-9]*\.?[0-9]+)", msg)`: scan left to right, taking each
non-overlapping match and continuing after it.  Structural recursion on a
fuel argument (each step consumes at least one character, so `cs.length`
fuel always suffices; see `findallNumsFuel_eq_of_le`). -/
def findallNumsFuel : ℕ → List Char → List (List Char)
  | 0, _ => []
  | _ + 1, [] => []
  | fuel + 1, c :: rest =>
    match numMatchAt (c :: rest) with
    | some (t, r) => t :: findallNumsFuel fuel r
    | none => findallNumsFuel fuel rest

def findallNums (cs : List Char) : List (List Char) :=
  findallNumsFuel cs.length cs

/-- Numeric value of a digit run. -/
def digitsVal (ds : List Char) : ℕ :=
  ds.foldl (fun a c => 10 * a + (c.toNat - ('0').toNat)) 0

/-- Value of a matched numeric token (digits, optionally `.` digits), as an
exact rational; models Python's `float(tok)` on the tokens the pattern can
produce (the claims only involve values this represents exactly). -/
def tokVal (t : List Char) : ℚ :=
  let d1 := t.takeWhile Char.isDigit
  match t.dropWhile Char.isDigit with
  | '.' :: fr => (digitsVal d1 : ℚ) + (digitsVal fr : ℚ) / (10 : ℚ) ^ fr.length
  | _ => (digitsVal d1 : ℚ)

/-! ## The pre-filter pattern `Price\s*-\s*\d+(\.\d+)?\s*\n.*Profit`
(`re.search`, `re.IGNORECASE`; `main.py` line 188). -/

/-- `.*Profit` (with `.` not matching newline): the literal `profit`
(case-insensitively) must start after only non-newline characters. -/
def profitFirstLine : List Char → Bool
  | [] => false
  | c :: rest =>
    icStartsWith (("profit").toList) (c :: rest) ||
      (c != '\n' && profitFirstLine rest)

/-- `\s*\n.*Profit`: the greedy `\s*` backtracks over the leading whitespace
run, so every newline inside that run is a candidate split point. -/
def nlProfitScan : List Char → Bool
  | [] => false
  | c :: rest =>
    if c = '\n' then profitFirstLine rest || nlProfitScan rest
    else if isSpace c then nlProfitScan rest
    else false

/-- Attempt the whole pre-filter pattern at the start of `cs`. -/
def prefilterTryAt (cs : List Char) : Bool :=
  if icStartsWith (("price").toList) cs then
    match (cs.drop 5).dropWhile isSpace with
    | '-' :: r3 =>
      let r4 := r3.dropWhile isSpace
      let d1 := r4.takeWhile Char.isDigit
      if d1.isEmpty then false
      else
        match r4.dropWhile Char.isDigit with
        | '.' :: r6 =>
          let d2 := r6.takeWhile Char.isDigit
          if d2.isEmpty then nlProfitScan ('.' :: r6)
          else nlProfitScan (r6.dropWhile Char.isDigit)
        | r5 => nlProfitScan r5
    | _ => false
  else false

/-- `re.search` of the pre-filter: try the pattern at every position. -/
def prefilterMatch : List Char → Bool
  | [] => false
  | c :: rest => prefilterTryAt (c :: rest) || prefilterMatch rest

/-! ## Side detection: `\b(long|buy)\b` / `\b(short|sell)\b`
(ignorecase; `main.py` lines 193-199). -/

/-- Word-boundary match of lowercase word `w` at the start of `cs`, with
`prev` the character before this position (`none` at string start). -/
def wordAt (w : List Char) (prev : Option Char) (cs : List Char) : Bool :=
  (match prev with
   | none => true
   | some p => !isWordChar p) &&
  icStartsWith w cs &&
  (match cs.drop w.length with
   | [] => true
   | d :: _ => !isWordChar d)

def hasWordFrom (w : List Char) : Option Char → List Char → Bool
  | _, [] => false
  | prev, c :: rest => wordAt w prev (c :: rest) || hasWordFrom w (some c) rest

def hasWord (w : List Char) (cs : List Char) : Bool :=
  hasWordFrom w none cs

/-- Side of the signal: `Buy` on whole-word long/buy, else `Sell` on
whole-word short/sell, else none (message rejected). -/
def sideOf (cs : List Char) : Option String :=
  if hasWord (("long").toList) cs || hasWord (("buy").toList) cs then some ("Buy")
  else if hasWord (("short").toList) cs || hasWord (("sell").toList) cs then some ("Sell")
  else none

/-! ## Symbol detection: `#?([A-Z0-9]+)` then an optional `-` or `/` then `USDT` on the uppercased message
(`main.py` lines 202-206). -/

def startsWithUSDT : List Char → Bool
  | 'U' :: 'S' :: 'D' :: 'T' :: _ => true
  | _ => false

/-- The optional-separator-then-`USDT` tail of the symbol pattern: the greedy optional separator consumes a `-` or `/` when
present (`USDT` can never match at the separator itself). -/
def usdtAfterSep : List Char → Bool
  | [] => false
  | c :: rest =>
    if c = '-' || c = '/' then startsWithUSDT rest else startsWithUSDT (c :: rest)

/-- Greedy `[A-Z0-9]+` with backtracking: try group lengths from `k` down
to 1 (called with `k` the maximal alphanumeric run length). -/
def symTryLen : ℕ → List Char → Option (List Char)
  | 0, _ => none
  | k + 1, cs =>
    if usdtAfterSep (cs.drop (k + 1)) then some (cs.take (k + 1))
    else symTryLen k cs

/-- Attempt the symbol pattern at the start of `cs`: `#?` consumes a leading
`#` when present (the pattern cannot match at a `#` otherwise, as `#` is not
in `[A-Z0-9]`). -/
def symTryAt (cs : List Char) : Option (List Char) :=
  let cs' := match cs with
    | '#' :: rest => rest
    | _ => cs
  symTryLen (cs'.takeWhile isUpperAlnum).length cs'

/-- `re.search` of the symbol pattern: leftmost position wins, returning the
group-1 text (the base token). -/
def symbolFind : List Char → Option (List Char)
  | [] => none
  | c :: rest =>
    match symTryAt (c :: rest) with
    | some g => some g
    | none => symbolFind rest

/-! ## Entry price: `Entry\s*-\s*([0-9]*\.?[0-9]+)` (ignorecase;
`main.py` lines 209-210). -/

/-- Attempt the entry pattern at the start of `cs`; returns the group-1
(token, remainder) pair. -/
def entryTryAt (cs : List Char) : Option (List Char × List Char) :=
  if icStartsWith (("entry").toList) cs then
    match (cs.drop 5).dropWhile isSpace with
    | '-' :: r2 => numMatchAt (r2.dropWhile isSpace)
    | _ => none
  else none

def entryFind : List Char → Option (List Char × List Char)
  | [] => none
  | c :: rest =>
    match entryTryAt (c :: rest) with
    | some t => some t
    | none => entryFind rest

/-! ## Take-Profit marker: `re.search(r"Take-?Profit", msg, re.IGNORECASE)`
(`main.py` line 214). -/

def tpMarkerAt (cs : List Char) : Bool :=
  icStartsWith (("take-profit").toList) cs || icStartsWith (("takeprofit").toList) cs

def hasTPmarkerFrom : List Char → Bool
  | [] => false
  | c :: rest => tpMarkerAt (c :: rest) || hasTPmarkerFrom rest

def hasTPmarker (cs : List Char) : Bool :=
  hasTPmarkerFrom cs

/-! ## The parsed signal and `parse_signal_message`
(`main.py` lines 179-236).  The source returns a dict with keys `symbol`,
`side`, `entry`, `tps`; it records no leverage and no allocation
fractions. -/

structure TradeSignal where
  symbol : String
  side : String
  entry : Option ℚ
  tps : List ℚ
deriving DecidableEq

def parse_signal_message (msg : String) : Option TradeSignal :=
  if prefilterMatch msg.toList = true then none
  else
    match sideOf msg.toList with
    | none => none
    | some side =>
      match symbolFind ((msg.toList).map Char.toUpper) with
      | none => none
      | some base =>
        some { symbol := String.mk (base ++ ("USDT").toList)
               side := side
               entry := (entryFind msg.toList).map (fun p => tokVal p.1)
               tps := if hasTPmarker msg.toList = true then
                   ((findallNums msg.toList).map tokVal).filter
                     (fun v => decide ((1 : ℚ)/100 < v))
                 else [] }

/-! ## Quantity sizing (`main.py` lines 27-29, 43-47, 111-124). -/

/-- `MIN_QTY = Decimal("0.000001")`. -/
def MIN_QTY : ℚ := (1 : ℚ)/1000000

/-- `QTY_DECIMALS = 6`. -/
def QTY_DECIMALS : ℕ := 6

/-- Python `Decimal` `ROUND_DOWN` to an integer: truncation toward zero. -/
def roundDownInt (q : ℚ) : ℤ :=
  if q < 0 then -(Rat.floor (-q)) else Rat.floor q

/-- `safe_decimal(v, d)`: quantize to `d` decimal places with
`ROUND_DOWN`. -/
def safe_decimal (v : ℚ) (d : ℕ) : ℚ :=
  ((roundDownInt (v * (10 : ℚ) ^ d) : ℤ) : ℚ) / (10 : ℚ) ^ d

/-- `calculate_order_qty(balance, percent, price)`: returns 0 on non-positive
inputs; otherwise truncates `balance*percent/price` down to `QTY_DECIMALS`
places and bumps the result up to `MIN_QTY` when it falls below it. -/
def calculate_order_qty (balance percent price : ℚ) : ℚ :=
  if price ≤ 0 ∨ balance ≤ 0 ∨ percent ≤ 0 then 0
  else
    let trade_value := balance * percent
    let qty := trade_value / price
    let qty1 := safe_decimal qty QTY_DECIMALS
    if qty1 < MIN_QTY then MIN_QTY else qty1

/-! ## The message handler (`main.py` lines 292-385) as a trace of exchange
API calls. -/

/-- One Bybit API call made by the handler.  `place_order` carries the
keyword arguments the source passes: order type, quantity, optional limit
price, `reduceOnly`, and the optional trigger price a stop order would
need — the source never supplies a trigger (`none` in every call it
makes). -/
inductive ApiCall where
  | switchMarginMode : String → ApiCall
  | setLeverage : String → ℕ → ApiCall
  | placeOrder : (symbol side orderType : String) → (qty : ℚ) →
      (price? : Option ℚ) → (reduceOnly : Bool) → (trigger? : Option ℚ) → ApiCall
deriving DecidableEq

def ApiCall.isOrderPlacement : ApiCall → Bool
  | ApiCall.placeOrder _ _ _ _ _ _ _ => true
  | _ => false

def ApiCall.isReduceOnly : ApiCall → Bool
  | ApiCall.placeOrder _ _ _ _ _ ro _ => ro
  | _ => false

/-- A stop-loss placement in the sense of the spec's exchange interface
(`placeStopLoss`): an order request carrying a stop trigger price, or one
whose order type is neither plain `Market` nor plain `Limit`.  This
definition follows the spec's words, to compare the spec's demanded
stop-loss step against the calls the source makes. -/
def isStopLossOrder : ApiCall → Bool
  | ApiCall.placeOrder _ _ otype _ _ _ trig? =>
    trig?.isSome || (otype != ("Market") && otype != ("Limit"))
  | _ => false

/-- Process-wide configuration read at startup (`TRADE_PERCENT`,
`DEFAULT_LEVERAGE`). -/
structure Config where
  tradePercent : ℚ
  defaultLeverage : ℕ
deriving DecidableEq

/-- Model of the market-order response: the handler's key-searching block
(lines 347-367) either extracts a filled quantity from the response or keeps
the requested quantity, captured by an optional `filledQty?`. -/
structure MarketResp where
  filledQty? : Option ℚ
deriving DecidableEq

/-- Oracle answers of the exchange collaborator for one handler cycle:
`get_balance` (0 on error), `get_market_price` (`none` on error), the
market-order response (`none` when `place_market_order` fails), and the
outcome flags of the margin/leverage calls (whose exceptions the source
catches and ignores). -/
structure Env where
  balance : ℚ
  price? : Option ℚ
  marketResp? : Option MarketResp
  marginOk : Bool
  leverageOk : Bool
deriving DecidableEq

/-- TP side flip in `place_reduce_only_tp`: a `Sell` position takes profit
with a `Buy` reduce-only limit order and vice versa. -/
def tpSide (side : String) : String :=
  if side.toLower = ("sell") then ("Buy") else ("Sell")

/-- The handler body (`main.py` lines 292-385): parse, check balance and
price, set margin mode and leverage (outcome ignored), size the order, stop
if the quantity is non-positive, place the market entry, stop if it failed,
then place a single reduce-only limit TP at the last parsed TP price (for
the filled quantity) when the TP list is non-empty.  Returns the list of
exchange calls attempted, in order. -/
def handlerRun (cfg : Config) (env : Env) (msg : String) : List ApiCall :=
  match parse_signal_message msg with
  | none => []
  | some parsed =>
    if env.balance ≤ 0 then []
    else
      match env.price? with
      | none => []
      | some price =>
        if price ≤ 0 then []
        else
          let setup := [ApiCall.switchMarginMode parsed.symbol,
                        ApiCall.setLeverage parsed.symbol cfg.defaultLeverage]
          let qty := calculate_order_qty env.balance cfg.tradePercent price
          if qty ≤ 0 then setup
          else
            let entryAct := ApiCall.placeOrder parsed.symbol parsed.side ("Market")
              qty none false none
            match env.marketResp? with
            | none => setup ++ [entryAct]
            | some resp =>
              let filledQty := (resp.filledQty?).getD qty
              match parsed.tps.getLast? with
              | none => setup ++ [entryAct]
              | some tp =>
                setup ++ [entryAct,
                  ApiCall.placeOrder parsed.symbol (tpSide parsed.side) ("Limit")
                    filledQty (some (safe_decimal tp 8)) true none]

/-! ## Helper lemmas -/

/-- `Rat.floor` agrees with the mathematical floor `⌊⌋`. -/
theorem ratFloor_eq_floor (q : ℚ) : Rat.floor q = ⌊q⌋ := by
  rw [Rat.floor_def', Rat.floor_def]

/-- Truncation never rounds a nonnegative value up. -/
theorem safe_decimal_le_self (v : ℚ) (d : ℕ) (hv : 0 ≤ v) :
    safe_decimal v d ≤ v := by
  unfold safe_decimal roundDownInt
  have hpow : (0 : ℚ) < (10 : ℚ) ^ d := by positivity
  have hnn : ¬ v * (10 : ℚ) ^ d < 0 := by
    push_neg
    positivity
  rw [if_neg hnn, ratFloor_eq_floor]
  rw [div_le_iff₀ hpow]
  exact Int.floor_le _

/-- Truncation of a nonnegative value stays nonnegative. -/
theorem safe_decimal_nonneg (v : ℚ) (d : ℕ) (hv : 0 ≤ v) :
    0 ≤ safe_decimal v d := by
  unfold safe_decimal roundDownInt
  have hpow : (0 : ℚ) < (10 : ℚ) ^ d := by positivity
  have hnn : ¬ v * (10 : ℚ) ^ d < 0 := by
    push_neg
    positivity
  rw [if_neg hnn, ratFloor_eq_floor]
  apply div_nonneg _ (le_of_lt hpow)
  have : (0 : ℤ) ≤ ⌊v * (10 : ℚ) ^ d⌋ := by
    apply Int.floor_nonneg.2
    positivity
  exact_mod_cast this

/-- Every leverage-setting call the handler makes carries the configured
default leverage (the handler passes `DEFAULT_LEVERAGE` to `set_leverage`,
line 325; the parsed message contributes nothing). -/
theorem handler_setLeverage_default (cfg : Config) (env : Env) (msg : String)
    (sym : String) (lev : ℕ)
    (h : ApiCall.setLeverage sym lev ∈ handlerRun cfg env msg) :
    lev = cfg.defaultLeverage := by
  simp only [handlerRun] at h
  repeat' split at h
  all_goals simp_all

/-! ## Claim C1 -/

/-- Claim C1, counterexample: at balance 1, risk fraction 1/100 and price
100000 (all in the claimed domain), the computed quantity is bumped up to
`MIN_QTY`, and the committed notional `qty * P` is 1/10, strictly above the
risk budget `B * r = 1/100`. -/
theorem c1_counterexample :
    0 < (1 : ℚ) ∧ 0 < (1 : ℚ)/100 ∧ (1 : ℚ)/100 ≤ 1 ∧ 0 < (100000 : ℚ) ∧
      (1 : ℚ) * ((1 : ℚ)/100) <
        calculate_order_qty 1 ((1 : ℚ)/100) 100000 * 100000 := by
  refine ⟨by norm_num, by norm_num, by norm_num, by norm_num, by decide⟩

/-- Claim C1 (amended): for balance B > 0, risk fraction r in (0,1] and
price P > 0, *provided the truncated quantity is at least `MIN_QTY`* (so the
minimum-quantity bump of lines 121-123 does not fire), the committed
notional `calculate_order_qty B r P * P` never exceeds the budget `B * r`;
the truncation of `safe_decimal` never rounds the quantity up. -/
theorem c1_amended (B r P : ℚ) (hB : 0 < B) (hr : 0 < r) (_hr1 : r ≤ 1)
    (hP : 0 < P)
    (hmin : MIN_QTY ≤ safe_decimal (B * r / P) QTY_DECIMALS) :
    calculate_order_qty B r P * P ≤ B * r := by
  unfold calculate_order_qty
  have hguard : ¬ (P ≤ 0 ∨ B ≤ 0 ∨ r ≤ 0) := by
    push_neg
    exact ⟨hP, hB, hr⟩
  rw [if_neg hguard]
  simp only []
  rw [if_neg (not_lt.2 hmin)]
  have hle : safe_decimal (B * r / P) QTY_DECIMALS ≤ B * r / P := by
    apply safe_decimal_le_self
    positivity
  calc safe_decimal (B * r / P) QTY_DECIMALS * P
      ≤ (B * r / P) * P := by
        apply mul_le_mul_of_nonneg_right hle (le_of_lt hP)
    _ = B * r := by field_simp

/-- Witness for `c1_amended`: Scenario C's numbers (balance 1000, r = 1/10,
price 50000) satisfy all hypotheses and the budget bound. -/
theorem c1_amended_witness :
    calculate_order_qty 1000 ((1 : ℚ)/10) 50000 * 50000 ≤ 1000 * ((1 : ℚ)/10) :=
  c1_amended 1000 ((1 : ℚ)/10) 50000 (by norm_num) (by norm_num) (by norm_num)
    (by norm_num) (by decide)

/-! ## Claim C10 -/

/-- Claim C10 (confirmed): for every positive balance, fraction and price,
`calculate_order_qty` returns at least `MIN_QTY`; when the truncated
quantity falls below `MIN_QTY` it is silently raised to exactly `MIN_QTY`,
so the sizer never returns 0 for positive inputs. -/
theorem c10_min_qty (B r P : ℚ) (hB : 0 < B) (hr : 0 < r) (hP : 0 < P) :
    MIN_QTY ≤ calculate_order_qty B r P ∧
      (safe_decimal (B * r / P) QTY_DECIMALS < MIN_QTY →
        calculate_order_qty B r P = MIN_QTY) := by
  unfold calculate_order_qty
  have hguard : ¬ (P ≤ 0 ∨ B ≤ 0 ∨ r ≤ 0) := by
    push_neg
    exact ⟨hP, hB, hr⟩
  rw [if_neg hguard]
  simp only []
  constructor
  · split
    · exact le_refl _
    · exact le_of_not_lt (by assumption)
  · intro hlt
    rw [if_pos hlt]

/-- Witness for `c10_min_qty`: at balance 1, fraction 1, price 10^9 the raw
quantity truncates to 0 and the sizer returns exactly `MIN_QTY`. -/
theorem c10_min_qty_witness :
    MIN_QTY ≤ calculate_order_qty 1 1 1000000000 ∧
      (safe_decimal ((1 : ℚ) * 1 / 1000000000) QTY_DECIMALS < MIN_QTY →
        calculate_order_qty 1 1 1000000000 = MIN_QTY) :=
  c10_min_qty 1 1 1000000000 (by norm_num) (by norm_num) (by norm_num)

/-! ## Claim C6 -/

/-- Claim C6 (confirmed): whenever the symbol pattern finds no match in the
uppercased message, `parse_signal_message` returns `none`, regardless of
side, entry or other content (every path without a symbol match ends in
`none`). -/
theorem c6_no_symbol_none (msg : String)
    (h : symbolFind ((msg.toList).map Char.toUpper) = none) :
    parse_signal_message msg = none := by
  unfold parse_signal_message
  split
  · rfl
  · cases hside : sideOf msg.toList with
    | none => rfl
    | some side => rw [h]

/-- Witness for `c6_no_symbol_none` (Scenario E): the message consisting of
the side keyword `short` alone has no symbol match and parses to `none`. -/
theorem c6_witness : parse_signal_message ("short") = none :=
  c6_no_symbol_none ("short") (by decide)

/-! ## Claim C7 -/

/-- Claim C7 (confirmed): every text matching the compact price/profit
digest pattern is rejected by the pre-filter before any side, symbol or
price extraction: `parse_signal_message` returns `none`. -/
theorem c7_prefilter_none (msg : String)
    (h : prefilterMatch msg.toList = true) :
    parse_signal_message msg = none := by
  unfold parse_signal_message
  rw [if_pos h]

/-- Witness for `c7_prefilter_none` (Scenario B): the exact two-line digest
text matches the pre-filter and parses to `none`. -/
theorem c7_witness :
    parse_signal_message ("✅ Price - 105.69\n🔝 Profit - 80%") = none :=
  c7_prefilter_none ("✅ Price - 105.69\n🔝 Profit - 80%") (by decide)

/-! ## Claim C2 -/

/-- Claim C2, counterexample: parsing Scenario A's exact text yields a
signal whose take-profit list is *empty* (the text has no `Take-Profit`
marker, so the TP branch of lines 213-227 never runs, and the parser records
no allocation fractions at all), and the parsed record carries no leverage —
the claimed take-profit list `[(51000, 0.5), (52000, 0.5)]` and leverage 10
do not appear.  Moreover, with a configured default leverage of 20 the
handler sets leverage 20 for this very message, not the 10 of its `x10`
token. -/
theorem c2_counterexample :
    parse_signal_message ("LONG BTC/USDT Entry - 50000 x10\n51000 (50%)\n52000 (50%)") =
        some (TradeSignal.mk ("BTCUSDT") ("Buy") (some 50000) []) ∧
      ApiCall.setLeverage ("BTCUSDT") 20 ∈
        handlerRun (Config.mk ((1 : ℚ)/10) 20)
          (Env.mk 1000 (some 100) (some (MarketResp.mk none)) true true)
          ("LONG BTC/USDT Entry - 50000 x10\n51000 (50%)\n52000 (50%)") := by
  constructor
  · decide
  · decide

/-- Claim C2 (amended): parsing Scenario A's text yields symbol `BTCUSDT`,
side `Buy` (Long) and entry 50000, but an empty take-profit list (the text
lacks the `Take-Profit` marker the source requires) and no leverage field;
whatever leverage the handler sets for this message is always the
configured default, never the message's `x10`. -/
theorem c2_amended :
    parse_signal_message ("LONG BTC/USDT Entry - 50000 x10\n51000 (50%)\n52000 (50%)") =
        some (TradeSignal.mk ("BTCUSDT") ("Buy") (some 50000) []) ∧
      ∀ (cfg : Config) (env : Env) (sym : String) (lev : ℕ),
        ApiCall.setLeverage sym lev ∈
            handlerRun cfg env
              ("LONG BTC/USDT Entry - 50000 x10\n51000 (50%)\n52000 (50%)") →
          lev = cfg.defaultLeverage := by
  constructor
  · decide
  · intro cfg env sym lev hmem
    exact handler_setLeverage_default cfg env _ sym lev hmem

/-- Witness for `c2_amended`: with default leverage 20, the leverage the
handler sets on Scenario A's message is 20. -/
theorem c2_amended_witness : (20 : ℕ) = (Config.mk ((1 : ℚ)/10) 20).defaultLeverage :=
  c2_amended.2 (Config.mk ((1 : ℚ)/10) 20)
    (Env.mk 1000 (some 100) (some (MarketResp.mk none)) true true)
    ("BTCUSDT") 20 (by decide)

/-! ## Claim C3 -/

/-- Claim C3, counterexample: a concrete accepted signal (`LONG BTC/USDT`,
empty TP list) whose market entry succeeds.  The handler's full call trace
is margin mode, leverage, market entry — nothing at all is attempted after
the entry (no TP legs, and in particular no stop-loss covering the full
quantity), and no call in the trace is a stop-loss placement. -/
theorem c3_counterexample :
    (parse_signal_message ("LONG BTC/USDT")).map TradeSignal.tps = some [] ∧
      handlerRun (Config.mk ((1 : ℚ)/10) 20)
          (Env.mk 1000 (some 100) (some (MarketResp.mk none)) true true)
          ("LONG BTC/USDT") =
        [ApiCall.switchMarginMode ("BTCUSDT"),
         ApiCall.setLeverage ("BTCUSDT") 20,
         ApiCall.placeOrder ("BTCUSDT") ("Buy") ("Market") 1 none false none] ∧
      (handlerRun (Config.mk ((1 : ℚ)/10) 20)
          (Env.mk 1000 (some 100) (some (MarketResp.mk none)) true true)
          ("LONG BTC/USDT")).filter isStopLossOrder = [] := by
  refine ⟨by decide, by decide, by decide⟩

/-- Claim C3 (amended): the handler never attempts a stop-loss placement at
all: every exchange call in every handler trace fails the stop-loss
predicate (the source's execution sequence is margin mode, leverage, market
entry, and at most one reduce-only limit take-profit order — it contains no
stop order, for empty and non-empty TP lists alike). -/
theorem c3_amended (cfg : Config) (env : Env) (msg : String) :
    ∀ a ∈ handlerRun cfg env msg, isStopLossOrder a = false := by
  intro a ha
  simp only [handlerRun] at ha
  repeat' split at ha
  all_goals simp_all [isStopLossOrder]
  all_goals (rcases ha with h | h | h | h <;> simp_all [isStopLossOrder])

/-- Witness for `c3_amended`: the margin-mode call of a concrete run is not
a stop-loss placement. -/
theorem c3_amended_witness :
    isStopLossOrder (ApiCall.switchMarginMode ("BTCUSDT")) = false :=
  c3_amended (Config.mk ((1 : ℚ)/10) 20)
    (Env.mk 1000 (some 100) (some (MarketResp.mk none)) true true)
    ("LONG BTC/USDT") (ApiCall.switchMarginMode ("BTCUSDT")) (by decide)

/-! ## Claim C4 -/

/-- Claim C4 (confirmed): when the market entry order fails (no success
payload), the handler's trace contains no reduce-only take-profit order and
no stop-loss placement — the cycle ends at the failed entry; and the
outcomes of the earlier margin-mode and leverage steps never influence the
trace (their failures are non-fatal and ignored). -/
theorem c4_entry_failure_terminal (cfg : Config) (env : Env) (msg : String)
    (h : env.marketResp? = none) :
    (handlerRun cfg env msg).filter
        (fun a => a.isReduceOnly || isStopLossOrder a) = [] ∧
      ∀ b₁ b₂ : Bool,
        handlerRun cfg (Env.mk env.balance env.price? env.marketResp? b₁ b₂) msg =
          handlerRun cfg env msg := by
  refine ⟨?_, fun b₁ b₂ => rfl⟩
  simp only [handlerRun]
  repeat' split
  all_goals simp_all [ApiCall.isReduceOnly, isStopLossOrder]

/-- Witness for `c4_entry_failure_terminal`: a concrete run whose market
order fails places no reduce-only or stop order, and flipping the
margin/leverage outcome flags leaves the trace unchanged. -/
theorem c4_witness :
    (handlerRun (Config.mk ((1 : ℚ)/10) 20) (Env.mk 1000 (some 100) none true true)
        ("LONG BTC/USDT")).filter
        (fun a => a.isReduceOnly || isStopLossOrder a) = [] ∧
      handlerRun (Config.mk ((1 : ℚ)/10) 20) (Env.mk 1000 (some 100) none false false)
          ("LONG BTC/USDT") =
        handlerRun (Config.mk ((1 : ℚ)/10) 20) (Env.mk 1000 (some 100) none true true)
          ("LONG BTC/USDT") :=
  ⟨(c4_entry_failure_terminal (Config.mk ((1 : ℚ)/10) 20)
      (Env.mk 1000 (some 100) none true true) ("LONG BTC/USDT") rfl).1,
   (c4_entry_failure_terminal (Config.mk ((1 : ℚ)/10) 20)
      (Env.mk 1000 (some 100) none true true) ("LONG BTC/USDT") rfl).2 false false⟩

/-! ## Claim C5 -/

/-- Claim C5, counterexample: balance 1, fraction 1/100, price 100000 — the
downward-rounded quantity is 0 (≤ 0), yet the cycle does *not* signal a
sizing rejection: the sizer bumps the quantity to `MIN_QTY` and the handler
places a market order. -/
theorem c5_counterexample :
    safe_decimal ((1 : ℚ) * ((1 : ℚ)/100) / 100000) QTY_DECIMALS ≤ 0 ∧
      (handlerRun (Config.mk ((1 : ℚ)/100) 20)
          (Env.mk 1 (some 100000) (some (MarketResp.mk none)) true true)
          ("LONG BTC/USDT")).filter ApiCall.isOrderPlacement =
        [ApiCall.placeOrder ("BTCUSDT") ("Buy") ("Market") MIN_QTY none false none] := by
  refine ⟨by decide, by decide⟩

/-- Claim C5 (amended): when the quantity the sizer returns is ≤ 0 (which,
because of the `MIN_QTY` bump, happens only for non-positive
balance/fraction/price inputs), the handler terminates the cycle without
placing any order and without crashing; a positive raw quantity whose
downward rounding is 0 is instead bumped to `MIN_QTY` and traded. -/
theorem c5_amended (cfg : Config) (env : Env) (msg : String) (p : ℚ)
    (hp : env.price? = some p)
    (hq : calculate_order_qty env.balance cfg.tradePercent p ≤ 0) :
    (handlerRun cfg env msg).filter ApiCall.isOrderPlacement = [] := by
  simp only [handlerRun]
  repeat' split
  all_goals simp_all [ApiCall.isOrderPlacement]

/-- Witness for `c5_amended`: with a configured trade fraction of 0 the
sizer returns 0 and a concrete run places no order. -/
theorem c5_amended_witness :
    (handlerRun (Config.mk 0 20)
        (Env.mk 1000 (some 100) (some (MarketResp.mk none)) true true)
        ("LONG BTC/USDT")).filter ApiCall.isOrderPlacement = [] :=
  c5_amended (Config.mk 0 20)
    (Env.mk 1000 (some 100) (some (MarketResp.mk none)) true true)
    ("LONG BTC/USDT") 100 rfl (by decide)

/-! ## Claim C8: structural lemmas about the numeric-token scan -/

/-- A numeric-token match decomposes its input: the token is a non-empty
prefix made of digits and dots, the remainder is the rest. -/
theorem numMatchAt_eq_append {cs t r : List Char}
    (h : numMatchAt cs = some (t, r)) :
    cs = t ++ r ∧ t ≠ [] ∧ ∀ x ∈ t, isNumChar x = true := by
  have hsplit := List.takeWhile_append_dropWhile (p := Char.isDigit) (l := cs)
  simp only [numMatchAt] at h
  split at h
  case _ r2 heq =>
    split at h
    case isTrue hd2 =>
      split at h
      case isTrue => exact absurd h (by simp)
      case isFalse hd1 =>
        obtain ⟨ht, hr⟩ := Prod.mk.injEq .. ▸ (Option.some.injEq .. ▸ h)
        subst ht
        subst hr
        refine ⟨?_, by simpa [List.isEmpty_iff] using hd1, ?_⟩
        · calc cs = List.takeWhile Char.isDigit cs ++ List.dropWhile Char.isDigit cs :=
                hsplit.symm
            _ = List.takeWhile Char.isDigit cs ++ '.' :: r2 := by rw [heq]
        · intro x hx
          have := List.mem_takeWhile_imp hx
          simp [isNumChar, this]
    case isFalse hd2 =>
      obtain ⟨ht, hr⟩ := Prod.mk.injEq .. ▸ (Option.some.injEq .. ▸ h)
      subst ht
      subst hr
      have hsplit2 := List.takeWhile_append_dropWhile (p := Char.isDigit) (l := r2)
      refine ⟨?_, by simp, ?_⟩
      · calc cs = List.takeWhile Char.isDigit cs ++ List.dropWhile Char.isDigit cs :=
              hsplit.symm
          _ = List.takeWhile Char.isDigit cs ++ '.' :: r2 := by rw [heq]
          _ = List.takeWhile Char.isDigit cs ++
                '.' :: (List.takeWhile Char.isDigit r2 ++ List.dropWhile Char.isDigit r2) := by
              rw [hsplit2]
          _ = (List.takeWhile Char.isDigit cs ++ '.' :: List.takeWhile Char.isDigit r2) ++
                List.dropWhile Char.isDigit r2 := by simp
      · intro x hx
        rcases List.mem_append.1 hx with hx1 | hx2
        · have := List.mem_takeWhile_imp hx1
          simp [isNumChar, this]
        · rcases List.mem_cons.1 hx2 with hdot | hx3
          · subst hdot
            decide
          · have := List.mem_takeWhile_imp hx3
            simp [isNumChar, this]
  case _ heq =>
    split at h
    case isTrue => exact absurd h (by simp)
    case isFalse hd1 =>
      obtain ⟨ht, hr⟩ := Prod.mk.injEq .. ▸ (Option.some.injEq .. ▸ h)
      subst ht
      subst hr
      refine ⟨hsplit.symm, by simpa [List.isEmpty_iff] using hd1, ?_⟩
      intro x hx
      have := List.mem_takeWhile_imp hx
      simp [isNumChar, this]

/-- The fuel argument of `findallNumsFuel` is irrelevant once it covers the
input length. -/
theorem findallNumsFuel_eq_of_le :
    ∀ (f₁ f₂ : ℕ) (cs : List Char), cs.length ≤ f₁ → cs.length ≤ f₂ →
      findallNumsFuel f₁ cs = findallNumsFuel f₂ cs := by
  intro f₁
  induction f₁ with
  | zero =>
    intro f₂ cs h1 _
    have : cs = [] := List.eq_nil_of_length_eq_zero (Nat.le_zero.1 h1)
    subst this
    cases f₂ <;> rfl
  | succ n ih =>
    intro f₂ cs h1 h2
    cases cs with
    | nil => cases f₂ <;> rfl
    | cons x l =>
      cases f₂ with
      | zero => simp at h2
      | succ m =>
        cases hm : numMatchAt (x :: l) with
        | none =>
          have hl : l.length ≤ n := by
            simp at h1
            omega
          have hl2 : l.length ≤ m := by
            simp at h2
            omega
          simp only [findallNumsFuel, hm]
          rw [ih m l hl hl2]
        | some p =>
          obtain ⟨t, r⟩ := p
          obtain ⟨happ, hne, _⟩ := numMatchAt_eq_append hm
          have hlen : r.length ≤ l.length := by
            have := congrArg List.length happ
            simp [List.length_append] at this
            have : 1 ≤ t.length := List.length_pos.2 hne
            omega
          have hr1 : r.length ≤ n := by
            simp at h1
            omega
          have hr2 : r.length ≤ m := by
            simp at h2
            omega
          simp only [findallNumsFuel, hm]
          rw [ih m r hr1 hr2]

/-- Unfolding `findallNums` when a token matches at the head. -/
theorem findallNums_cons_some {x : Char} {l t r : List Char}
    (hm : numMatchAt (x :: l) = some (t, r)) :
    findallNums (x :: l) = t :: findallNums r := by
  obtain ⟨happ, hne, _⟩ := numMatchAt_eq_append hm
  have hlen : r.length ≤ l.length := by
    have := congrArg List.length happ
    simp [List.length_append] at this
    have : 1 ≤ t.length := List.length_pos.2 hne
    omega
  simp only [findallNums, List.length_cons, findallNumsFuel, hm]
  rw [findallNumsFuel_eq_of_le l.length r.length r hlen (le_refl _)]

/-- Unfolding `findallNums` when no token matches at the head. -/
theorem findallNums_cons_none {x : Char} {l : List Char}
    (hm : numMatchAt (x :: l) = none) :
    findallNums (x :: l) = findallNums l := by
  simp only [findallNums, List.length_cons, findallNumsFuel, hm]

/-- A token matching at the very start of the input is the scan's first
result. -/
theorem numMatchAt_token_mem_findall {cs t r : List Char}
    (h : numMatchAt cs = some (t, r)) : t ∈ findallNums cs := by
  cases cs with
  | nil => simp [numMatchAt] at h
  | cons x l =>
    rw [findallNums_cons_some h]
    exact List.mem_cons_self _ _

/-- A block of numeric characters at the start of a list that ends before a
non-numeric boundary character lies entirely before that boundary. -/
theorem token_prefix_split :
    ∀ (t0 : List Char), ∀ {rest2 a suf : List Char} {c : Char},
      t0 ++ rest2 = a ++ c :: suf →
      (∀ x ∈ t0, isNumChar x = true) → isNumChar c = false →
      ∃ a2, a = t0 ++ a2 ∧ rest2 = a2 ++ c :: suf := by
  intro t0
  induction t0 with
  | nil =>
    intro rest2 a suf c heq _ _
    exact ⟨a, rfl, by simpa using heq⟩
  | cons x t0' ih =>
    intro rest2 a suf c heq hmem hc
    cases a with
    | nil =>
      simp only [List.nil_append, List.cons_append] at heq
      have hx : x = c := (List.cons.injEq .. ▸ heq).1
      have : isNumChar c = true := hx ▸ hmem x (List.mem_cons_self _ _)
      rw [this] at hc
      cases hc
    | cons y a' =>
      simp only [List.cons_append] at heq
      obtain ⟨hxy, heq'⟩ := List.cons.injEq .. ▸ heq
      obtain ⟨a2, ha, hr⟩ := ih heq' (fun z hz => hmem z (List.mem_cons_of_mem _ hz)) hc
      exact ⟨a2, by rw [hxy, ha, List.cons_append], hr⟩

/-- Key lemma: a numeric token that matches right after a non-numeric
boundary character appears among the results of the whole-message scan
(`re.findall` finds every such token). -/
theorem token_mem_findall :
    ∀ (n : ℕ) (cs a suf : List Char) (c : Char) (t r : List Char),
      cs.length ≤ n → cs = a ++ c :: suf → isNumChar c = false →
      numMatchAt suf = some (t, r) → t ∈ findallNums cs := by
  intro n
  induction n with
  | zero =>
    intro cs a suf c t r hlen heq _ _
    subst heq
    simp at hlen
  | succ n ih =>
    intro cs a suf c t r hlen heq hc hm
    cases hcs : cs with
    | nil =>
      subst heq
      simp at hcs
    | cons x l =>
      subst hcs
      cases hm0 : numMatchAt (x :: l) with
      | none =>
        rw [findallNums_cons_none hm0]
        cases a with
        | nil =>
          simp only [List.nil_append] at heq
          obtain ⟨hx, hl⟩ := List.cons.injEq .. ▸ heq
          subst hl
          exact numMatchAt_token_mem_findall hm
        | cons y a' =>
          simp only [List.cons_append] at heq
          obtain ⟨hx, hl⟩ := List.cons.injEq .. ▸ heq
          have hlen' : l.length ≤ n := by
            simp at hlen
            omega
          exact ih l a' suf c t r hlen' hl hc hm
      | some p =>
        obtain ⟨t0, rest2⟩ := p
        rw [findallNums_cons_some hm0]
        obtain ⟨happ, hne, hnum⟩ := numMatchAt_eq_append hm0
        obtain ⟨a2, ha, hrest⟩ := token_prefix_split t0 (happ.symm.trans heq) hnum hc
        have hlen' : rest2.length ≤ n := by
          have := congrArg List.length happ
          simp [List.length_append] at this
          have h1 : 1 ≤ t0.length := List.length_pos.2 hne
          simp at hlen
          omega
        exact List.mem_cons_of_mem _ (ih rest2 a2 suf c t r hlen' hrest hc hm)

/-- Whitespace characters are not numeric-token characters. -/
theorem space_not_numChar (x : Char) (hx : isSpace x = true) :
    isNumChar x = false := by
  simp only [isSpace, Bool.or_eq_true, beq_iff_eq] at hx
  rcases hx with ((((h | h) | h) | h) | h) | h <;> subst h <;> decide

/-- The region between the `-` of the entry pattern and the numeric token it
captures consists of the dash and whitespace; its last character is a
non-numeric boundary for the token. -/
theorem dash_spaces_split (ws r3 : List Char)
    (hws : ∀ x ∈ ws, isSpace x = true) :
    ∃ a c, ('-' :: (ws ++ r3)) = a ++ c :: r3 ∧ isNumChar c = false := by
  induction ws using List.reverseRecOn with
  | nil => exact ⟨[], '-', by simp, by decide⟩
  | append_singleton ws' x _ =>
    refine ⟨'-' :: ws', x, by simp, ?_⟩
    exact space_not_numChar x (hws x (by simp))

/-- A successful entry-pattern attempt splits the text at a non-numeric
boundary character right before the captured numeric token. -/
theorem entryTryAt_decomp (cs : List Char) (t r : List Char)
    (h : entryTryAt cs = some (t, r)) :
    ∃ a c suf, cs = a ++ c :: suf ∧ isNumChar c = false ∧
      numMatchAt suf = some (t, r) := by
  simp only [entryTryAt] at h
  split at h
  case isFalse => exact absurd h (by simp)
  case isTrue =>
    split at h
    case _ r2 heq =>
      have e1 : cs.drop 5 = (cs.drop 5).takeWhile isSpace ++ '-' :: r2 := by
        conv_lhs => rw [← List.takeWhile_append_dropWhile (p := isSpace) (l := cs.drop 5)]
        rw [heq]
      have e2 : r2 = r2.takeWhile isSpace ++ r2.dropWhile isSpace := by
        rw [List.takeWhile_append_dropWhile]
      obtain ⟨a0, c, e3, hc⟩ :=
        dash_spaces_split (r2.takeWhile isSpace) (r2.dropWhile isSpace)
          (fun x hx => List.mem_takeWhile_imp hx)
      refine ⟨cs.take 5 ++ (cs.drop 5).takeWhile isSpace ++ a0, c,
        r2.dropWhile isSpace, ?_, hc, h⟩
      calc cs = cs.take 5 ++ cs.drop 5 := (List.take_append_drop 5 cs).symm
        _ = cs.take 5 ++ ((cs.drop 5).takeWhile isSpace ++ '-' :: r2) := by rw [← e1]
        _ = cs.take 5 ++ ((cs.drop 5).takeWhile isSpace ++
              '-' :: (r2.takeWhile isSpace ++ r2.dropWhile isSpace)) := by rw [← e2]
        _ = cs.take 5 ++ ((cs.drop 5).takeWhile isSpace ++
              (a0 ++ c :: r2.dropWhile isSpace)) := by rw [e3]
        _ = (cs.take 5 ++ (cs.drop 5).takeWhile isSpace ++ a0) ++
              c :: r2.dropWhile isSpace := by simp [List.append_assoc]
    case _ hne =>
      exact absurd h (by simp)

/-- Every token the entry search returns sits after a non-numeric boundary
character of the message. -/
theorem entryFind_decomp :
    ∀ (cs : List Char) (t r : List Char), entryFind cs = some (t, r) →
      ∃ a c suf, cs = a ++ c :: suf ∧ isNumChar c = false ∧
        numMatchAt suf = some (t, r) := by
  intro cs
  induction cs with
  | nil => intro t r h; simp [entryFind] at h
  | cons c0 rest ih =>
    intro t r h
    simp only [entryFind] at h
    split at h
    case _ p heq =>
      injection h with ht
      subst ht
      exact entryTryAt_decomp (c0 :: rest) t r heq
    case _ heq =>
      obtain ⟨a, c, suf, e, hc, hm⟩ := ih t r h
      exact ⟨c0 :: a, c, suf, by rw [e, List.cons_append], hc, hm⟩

/-- Structure of a successfully parsed signal: its entry is the value of the
entry search's token and, when the Take-Profit marker is present, its TP
list is the filtered value list of the whole-message numeric scan. -/
theorem parse_some_fields (msg : String) (sig : TradeSignal)
    (h : parse_signal_message msg = some sig) :
    sig.entry = (entryFind msg.toList).map (fun p => tokVal p.1) ∧
      (hasTPmarker msg.toList = true →
        sig.tps = ((findallNums msg.toList).map tokVal).filter
          (fun v => decide ((1 : ℚ)/100 < v))) := by
  simp only [parse_signal_message] at h
  split at h
  · exact absurd h (by simp)
  · split at h
    case _ => exact absurd h (by simp)
    case _ side heq =>
      split at h
      case _ => exact absurd h (by simp)
      case _ base heq2 =>
        injection h with hsig
        subst hsig
        constructor
        · rfl
        · intro hm
          show (if hasTPmarker msg.toList = true then _ else []) = _
          rw [if_pos hm]

/-! ## Claim C8: settlement -/

/-- Claim C8, counterexample: the message
`LONG BTC/USDT Entry - 50000 Take-Profit 60000` contains a Take-Profit
marker and the explicit entry price 50000, and the fallback numeric-token
scan produces the TP list `[50000, 60000]` — the parsed entry price *is*
contained in the TP list, contrary to the claimed exclusion. -/
theorem c8_counterexample :
    parse_signal_message ("LONG BTC/USDT Entry - 50000 Take-Profit 60000") =
        some (TradeSignal.mk ("BTCUSDT") ("Buy") (some 50000) [50000, 60000]) ∧
      (50000 : ℚ) ∈
        (TradeSignal.mk ("BTCUSDT") ("Buy") (some 50000) [50000, 60000]).tps := by
  refine ⟨by decide, by decide⟩

/-- Claim C8 (amended): the fallback numeric-token scan does *not* exclude
the entry price — it collects every numeric token of the message whose
value exceeds 0.01.  In particular, for every message containing a
Take-Profit marker whose parsed entry value exceeds 0.01, that entry value
appears in the signal's TP list. -/
theorem c8_amended (msg : String) (sig : TradeSignal) (e : ℚ)
    (hp : parse_signal_message msg = some sig)
    (he : sig.entry = some e)
    (hm : hasTPmarker msg.toList = true)
    (hgt : (1 : ℚ)/100 < e) :
    e ∈ sig.tps := by
  obtain ⟨hentry, htps⟩ := parse_some_fields msg sig hp
  rw [htps hm]
  rw [hentry] at he
  obtain ⟨p, hfind, hval⟩ := Option.map_eq_some'.1 he
  obtain ⟨t, r⟩ := p
  obtain ⟨a, c, suf, hdecomp, hc, hnum⟩ := entryFind_decomp msg.toList t r hfind
  have hmem : t ∈ findallNums msg.toList :=
    token_mem_findall msg.toList.length msg.toList a suf c t r (le_refl _)
      hdecomp hc hnum
  have hmem2 : e ∈ (findallNums msg.toList).map tokVal := by
    rw [← hval]
    exact List.mem_map_of_mem tokVal hmem
  exact List.mem_filter.2 ⟨hmem2, by simpa using hgt⟩

/-- Witness for `c8_amended`: on the counterexample message the entry value
50000 exceeds 0.01 and lands in the TP list. -/
theorem c8_amended_witness :
    (50000 : ℚ) ∈
      (TradeSignal.mk ("BTCUSDT") ("Buy") (some 50000) [50000, 60000]).tps :=
  c8_amended ("LONG BTC/USDT Entry - 50000 Take-Profit 60000")
    (TradeSignal.mk ("BTCUSDT") ("Buy") (some 50000) [50000, 60000]) 50000
    (by decide) (by decide) (by decide) (by norm_num)
